import Mathlib

/-!
Shallow embedding of the watermark localization-and-removal pipeline of
src/watermark.py (functions detect_sora_watermark, remove_watermark_inpaint,
remove_watermark_smart, process_video_watermark).

Frames are 3-channel byte grids, masks are single-channel byte grids; all
channel values are modelled as natural numbers (the code only ever produces
values in 0..255).  Python float computations such as int(w * 0.7) are
modelled exactly, including the IEEE-754 double rounding of the constant
0.7 (for example int(90 * 0.7) evaluates to 62 in Python, not 63); the
formulas below were checked against CPython for every width up to 200000.

External OpenCV primitives that the code calls are modelled from their
documented contracts: cv2.inpaint writes synthesized values only at
nonzero-mask pixels and copies the input elsewhere (the synthesized values
themselves are abstracted as an oracle), cv2.findContours and cv2.Canny are
abstracted as oracles, cv2.dilate is an exact max-filter with the exact
7x7 elliptical (resp. default 3x3) structuring element that OpenCV builds,
cv2.threshold and cv2.cvtColor(BGR2GRAY) use the exact OpenCV fixed-point
formulas, and numpy elementwise arithmetic uses the numpy broadcasting rule.
-/

/-- One pixel: blue, green, red channel values (numpy uint8, modelled as Nat). -/
def Pix : Type := ℕ × ℕ × ℕ

instance : DecidableEq Pix := by unfold Pix; infer_instance

/-- A 3-channel image: height, width, and the pixel at (row, column). -/
structure Image where
  h : ℕ
  w : ℕ
  px : ℕ → ℕ → Pix

/-- A single-channel grid (mask, thresholded image, edge map). -/
structure Grid where
  h : ℕ
  w : ℕ
  cell : ℕ → ℕ → ℕ

/-- A contour as the code consumes it: cv2.boundingRect output plus
cv2.contourArea output (a float, modelled as a rational). -/
structure Contour where
  x : ℕ
  y : ℕ
  w : ℕ
  h : ℕ
  area : ℚ

/-- Oracles for the OpenCV primitives whose pixel-level output the claims do
not depend on: contour extraction on the thresholded sub-rectangle, the
Telea inpainting synthesizer (queried only at masked pixels), and the Canny
edge detector applied to the mask. -/
structure CvOracles where
  findContours : Grid → List Contour
  telea : Image → Grid → ℕ → ℕ → ℕ → Pix
  canny : Grid → ℕ → ℕ → ℕ

/-- The trivial oracle instantiation used for concrete evaluations: no
contours (faithful whenever the thresholded image is all zero, as
cv2.findContours returns no contours on an all-zero image), black
synthesized pixels, empty edge map. -/
def o0 : CvOracles :=
  { findContours := fun _ => []
    telea := fun _ _ _ _ _ => (0, 0, 0)
    canny := fun _ _ _ => 0 }

/-- Errors signalled by the modelled library calls: an OpenCV input-check
failure (dimension mismatch or empty input) or a numpy broadcast failure. -/
inductive CvError where
  | invalidInput : CvError
  | broadcastMismatch : CvError
  | sourceUnreadable : CvError
deriving DecidableEq

/-- int(h * 0.85) of Python: the double 0.85 is slightly above 17/20, and
the truncation always agrees with floor(17 h / 20). -/
def roiY (h : ℕ) : ℕ := 17 * h / 20

/-- Floor of the base-2 logarithm, by structural recursion on a fuel bound
(fuel n suffices for every n), so that it reduces in the kernel. -/
def log2Aux : ℕ → ℕ → ℕ
  | 0, _ => 0
  | fuel + 1, n => if n < 2 then 0 else 1 + log2Aux fuel (n / 2)

/-- Floor of the base-2 logarithm of a positive natural. -/
def log2floor (n : ℕ) : ℕ := log2Aux n n

/-- int(w * 0.7) of Python: the double 0.7 is slightly below 7/10, so for
widths divisible by 10 the product can round to just below the integer
7 w / 10 and truncate one lower; this happens exactly when 7 w / 10 sits in
the upper part of its binade (checked against CPython for w up to 200000). -/
def roiX (w : ℕ) : ℕ :=
  if w % 10 = 0 then
    (if 7 * w / 10 = 0 then 0
     else if 7 * 2 ^ log2floor (7 * w / 10) < 4 * (7 * w / 10) then 7 * w / 10 - 1
     else 7 * w / 10)
  else 7 * w / 10

/-- int(w * 0.02) of Python; agrees with floor(w / 50). -/
def margin2pct (w : ℕ) : ℕ := w / 50

/-- int(w * 0.08) of Python; agrees with floor(2 w / 25). -/
def wmWidth (w : ℕ) : ℕ := 2 * w / 25

/-- int(h * 0.04) of Python; agrees with floor(h / 25). -/
def wmHeight (h : ℕ) : ℕ := h / 25

/-- cv2.cvtColor BGR2GRAY on uint8: OpenCV fixed-point formula
(4899 R + 9617 G + 1868 B + 8192) >> 14. -/
def gray (p : Pix) : ℕ := (1868 * p.1 + 9617 * p.2.1 + 4899 * p.2.2 + 8192) / 16384

/-- The thresholded sub-rectangle: rows from roiY, columns from roiX,
luminance binary-thresholded at 200 (strictly greater maps to 255).
Out-of-range cells are fixed to 0 so the grid is determined by the
sub-rectangle content. -/
def threshRoi (f : Image) : Grid :=
  { h := f.h - roiY f.h
    w := f.w - roiX f.w
    cell := fun y x =>
      if y < f.h - roiY f.h ∧ x < f.w - roiX f.w then
        (if 200 < gray (f.px (roiY f.h + y) (roiX f.w + x)) then 255 else 0)
      else 0 }

/-- The contour size filter of the code: area strictly between 100 and
10000, bounding-box width in (10, 300), height in (5, 100). -/
def acceptContour (c : Contour) : Bool :=
  decide (100 < c.area) && decide (c.area < 10000) &&
  decide (10 < c.w) && decide (c.w < 300) &&
  decide (5 < c.h) && decide (c.h < 100)

/-- Whether the padded rectangle the code draws for an accepted contour
covers the cell (y, x) of the full-size mask.  The code computes
x1 = max(0, x - 5) + roi_x, y1 = max(0, y - 5) + roi_y and fills the
rectangle from (x1, y1) to (x1 + cw + 10, y1 + ch + 10) inclusive, clipped
to the image. -/
def contourCovers (hh ww : ℕ) (c : Contour) (y x : ℕ) : Bool :=
  let x1 : ℤ := max 0 ((c.x : ℤ) - 5) + roiX ww
  let y1 : ℤ := max 0 ((c.y : ℤ) - 5) + roiY hh
  decide (x1 ≤ (x : ℤ) ∧ (x : ℤ) ≤ x1 + c.w + 10 ∧
          y1 ≤ (y : ℤ) ∧ (y : ℤ) ≤ y1 + c.h + 10 ∧ x < ww ∧ y < hh)

/-- The mask contribution of the text-contour loop: 255 where some accepted
contour rectangle was drawn, 0 elsewhere. -/
def contourGrid (hh ww : ℕ) (cs : List Contour) : Grid :=
  { h := hh
    w := ww
    cell := fun y x =>
      if cs.any (fun c => acceptContour c && contourCovers hh ww c y x) then 255 else 0 }

/-- Whether (y, x) lies in the fixed prior rectangle the code draws with
value 128: bottom-right, width int(0.08 w), height int(0.04 h), inset
int(0.02 w) and int(0.02 h) from the right and bottom edges, clipped to the
image (cv2.rectangle includes both corners). -/
def inPriorRect (hh ww y x : ℕ) : Prop :=
  (ww : ℤ) - margin2pct ww - wmWidth ww ≤ (x : ℤ) ∧
  (x : ℤ) ≤ (ww : ℤ) - margin2pct ww ∧
  (hh : ℤ) - margin2pct hh - wmHeight hh ≤ (y : ℤ) ∧
  (y : ℤ) ≤ (hh : ℤ) - margin2pct hh ∧ x < ww ∧ y < hh

instance (hh ww y x : ℕ) : Decidable (inPriorRect hh ww y x) := by
  unfold inPriorRect; infer_instance

/-- The fixed prior region grid: 128 inside the prior rectangle, 0 outside. -/
def priorGrid (hh ww : ℕ) : Grid :=
  { h := hh, w := ww, cell := fun y x => if inPriorRect hh ww y x then 128 else 0 }

/-- cv2.bitwise_or of two equally-sized grids (pointwise bitwise or). -/
def orGrid (g1 g2 : Grid) : Grid :=
  { h := g1.h, w := g1.w, cell := fun y x => g1.cell y x ||| g2.cell y x }

/-- Maximum of a list of naturals (0 for the empty list). -/
def maxList (l : List ℕ) : ℕ := l.foldr max 0

/-- The 7x7 elliptical structuring element cv2.getStructuringElement builds
(MORPH_ELLIPSE, size 7x7), as the list of set offsets from the anchor. -/
def ellipse7 : List (ℤ × ℤ) :=
  [(-3, 0),
   (-2, -2), (-2, -1), (-2, 0), (-2, 1), (-2, 2),
   (-1, -3), (-1, -2), (-1, -1), (-1, 0), (-1, 1), (-1, 2), (-1, 3),
   (0, -3), (0, -2), (0, -1), (0, 0), (0, 1), (0, 2), (0, 3),
   (1, -3), (1, -2), (1, -1), (1, 0), (1, 1), (1, 2), (1, 3),
   (2, -2), (2, -1), (2, 0), (2, 1), (2, 2),
   (3, 0)]

/-- The default 3x3 rectangular structuring element (kernel None in
cv2.dilate). -/
def rect3 : List (ℤ × ℤ) :=
  [(-1, -1), (-1, 0), (-1, 1), (0, -1), (0, 0), (0, 1), (1, -1), (1, 0), (1, 1)]

/-- One cv2.dilate pass: max-filter with the given structuring element;
out-of-bounds neighbors do not contribute (OpenCV uses a minus-infinity
constant border for dilation). -/
def cvDilate (K : List (ℤ × ℤ)) (g : Grid) : Grid :=
  { h := g.h
    w := g.w
    cell := fun y x =>
      maxList (K.map (fun d =>
        if 0 ≤ (y : ℤ) + d.1 ∧ (y : ℤ) + d.1 < (g.h : ℤ) ∧
           0 ≤ (x : ℤ) + d.2 ∧ (x : ℤ) + d.2 < (g.w : ℤ) then
          g.cell ((y : ℤ) + d.1).toNat ((x : ℤ) + d.2).toNat
        else 0)) }

/-- The mask before dilation: text-contour rectangles or-ed with the fixed
prior region. -/
def preDilationMask (hh ww : ℕ) (cs : List Contour) : Grid :=
  orGrid (contourGrid hh ww cs) (priorGrid hh ww)

/-- The final mask built from the frame dimensions and the contour list:
combine contour rectangles with the prior region, then dilate twice with
the 7x7 elliptical element (iterations=2). -/
def detectFromParts (hh ww : ℕ) (cs : List Contour) : Grid :=
  cvDilate ellipse7 (cvDilate ellipse7 (preDilationMask hh ww cs))

/-- detect_sora_watermark of src/watermark.py as a total function of the
frame (the contour step goes through the oracle applied to the thresholded
sub-rectangle). -/
def detect_sora_watermark (o : CvOracles) (f : Image) : Grid :=
  detectFromParts f.h f.w (o.findContours (threshRoi f))

/-- detect_sora_watermark with the failure behaviour of the library calls
made explicit: cv2.cvtColor raises on an empty input, and the extracted
sub-rectangle is empty exactly when the frame has no rows or no columns. -/
def detectSoraWatermarkE (o : CvOracles) (f : Image) : Except CvError Grid :=
  if f.h - roiY f.h = 0 ∨ f.w - roiX f.w = 0 then .error .invalidInput
  else .ok (detect_sora_watermark o f)

/-- The image cv2.inpaint produces when its input checks pass: synthesized
(oracle) values at in-bounds pixels whose mask cell is nonzero, the input
pixel everywhere else.  This is the documented Telea contract: only the
region marked by the mask is modified. -/
def inpaintImg (o : CvOracles) (f : Image) (m : Grid) (r : ℕ) : Image :=
  { h := f.h
    w := f.w
    px := fun y x =>
      if y < f.h ∧ x < f.w ∧ m.cell y x ≠ 0 then o.telea f m r y x else f.px y x }

/-- cv2.inpaint: fails (OpenCV assertion) when the mask dimensions differ
from the image dimensions, otherwise rewrites only the masked pixels. -/
def cvInpaint (o : CvOracles) (f : Image) (m : Grid) (r : ℕ) : Except CvError Image :=
  if f.h = m.h ∧ f.w = m.w then .ok (inpaintImg o f m r) else .error .invalidInput

/-- remove_watermark_inpaint of src/watermark.py: cv2.inpaint with
inpaintRadius 5 and the Telea flag. -/
def remove_watermark_inpaint (o : CvOracles) (f : Image) (m : Grid) : Except CvError Image :=
  cvInpaint o f m 5

/-- The numpy broadcast rule for one pair of 2-D shapes: compatible when
each dimension pair agrees or one side is 1; the result takes the maximum
in each dimension. -/
def bcastDims (a b : ℕ × ℕ) : Option (ℕ × ℕ) :=
  if (a.1 = b.1 ∨ a.1 = 1 ∨ b.1 = 1) ∧ (a.2 = b.2 ∨ a.2 = 1 ∨ b.2 = 1) then
    some (max a.1 b.1, max a.2 b.2)
  else none

/-- Broadcast indexing: a dimension of size 1 is indexed at 0. -/
def bidx (d i : ℕ) : ℕ := if d = 1 then 0 else i

/-- Truncation of a nonnegative real (here rational) to uint8 as
numpy astype does for the in-range values arising here. -/
def ratToUint8 (q : ℚ) : ℕ := Int.toNat ⌊q⌋

/-- One channel of the temporal blend the code computes:
current * (1 - m1 / 255) + previous * (m2 / 255), truncated to uint8.
The two mask samples coincide except under degenerate broadcasting. -/
def blendChan (c p m1 m2 : ℕ) : ℕ :=
  ratToUint8 ((c : ℚ) * (1 - (m1 : ℚ) / 255) + (p : ℚ) * ((m2 : ℚ) / 255))

/-- The temporal blend at equal mask samples (the ordinary case). -/
def blendPixel (c p m : ℕ) : ℕ := blendChan c p m m

/-- All three channels of the blend. -/
def blendPix (c p : Pix) (m1 m2 : ℕ) : Pix :=
  (blendChan c.1 p.1 m1 m2, blendChan c.2.1 p.2.1 m1 m2, blendChan c.2.2 p.2.2 m1 m2)

/-- The blended image result * (1 - mask_3ch) + prev_frame * mask_3ch
with numpy broadcast indexing: s1 is the shape of the first product,
s2 of the second, s of the sum. -/
def blendImage (f p : Image) (m : Grid) (s1 s2 s : ℕ × ℕ) : Image :=
  { h := s.1
    w := s.2
    px := fun y x =>
      let y1 := bidx s1.1 y; let x1 := bidx s1.2 x
      let y2 := bidx s2.1 y; let x2 := bidx s2.2 x
      blendPix (f.px (bidx f.h y1) (bidx f.w x1))
               (p.px (bidx p.h y2) (bidx p.w x2))
               (m.cell (bidx m.h y1) (bidx m.w x1))
               (m.cell (bidx m.h y2) (bidx m.w x2)) }

/-- The Canny edge map of the mask, dims taken from the mask. -/
def cannyGrid (o : CvOracles) (m : Grid) : Grid :=
  { h := m.h, w := m.w, cell := o.canny m }

/-- The edge band the code inpaints: Canny of the mask dilated twice with
the default 3x3 kernel. -/
def edgeMask (o : CvOracles) (m : Grid) : Grid :=
  cvDilate rect3 (cvDilate rect3 (cannyGrid o m))

/-- remove_watermark_smart of src/watermark.py.  With no previous frame it
is exactly remove_watermark_inpaint.  With a previous frame it blends the
current frame toward the previous one using the mask as per-pixel weight
(numpy elementwise arithmetic, which raises a broadcast error on
incompatible shapes), then inpaints the dilated Canny edge band of the
mask with radius 3. -/
def remove_watermark_smart (o : CvOracles) (f : Image) (m : Grid)
    (prev : Option Image) : Except CvError Image :=
  match prev with
  | none => remove_watermark_inpaint o f m
  | some p =>
    match bcastDims (f.h, f.w) (m.h, m.w) with
    | none => .error .broadcastMismatch
    | some s1 =>
      match bcastDims (p.h, p.w) (m.h, m.w) with
      | none => .error .broadcastMismatch
      | some s2 =>
        match bcastDims s1 s2 with
        | none => .error .broadcastMismatch
        | some s => cvInpaint o (blendImage f p m s1 s2 s) (edgeMask o m) 3

/-- The streaming loop of process_video_watermark: reconstruct each frame
with the fixed mask and the rolling previous-output reference, collecting
the written frames in order; any reconstruction error aborts. -/
def processLoop (o : CvOracles) (mask : Grid) :
    List Image → Option Image → Except CvError (List Image)
  | [], _ => .ok []
  | f :: rest, prev =>
    match remove_watermark_smart o f mask prev with
    | .error e => .error e
    | .ok c =>
      match processLoop o mask rest (some c) with
      | .error e => .error e
      | .ok cs => .ok (c :: cs)

/-- process_video_watermark of src/watermark.py over an abstract frame
source (the ordered list of frames of the video): fail fast when the first
frame cannot be read, compute the mask once from frame 0, rewind, then
stream every frame (frame 0 included) through remove_watermark_smart with
the rolling previous-output reference, writing each result. -/
def process_video_watermark (o : CvOracles) (frames : List Image) :
    Except CvError (List Image) :=
  match frames with
  | [] => .error .sourceUnreadable
  | f0 :: _ => processLoop o (detect_sora_watermark o f0) frames none

/-- Frames used for concrete evaluations: an all-black 100x100 frame. -/
def black100 : Image := { h := 100, w := 100, px := fun _ _ => (0, 0, 0) }

/-- A constant 2x2 frame. -/
def f22 : Image := { h := 2, w := 2, px := fun _ _ => (5, 6, 7) }

/-- An all-zero 2x2 mask. -/
def m22 : Grid := { h := 2, w := 2, cell := fun _ _ => 0 }

/-- A constant 2x2 previous frame. -/
def p22 : Image := { h := 2, w := 2, px := fun _ _ => (9, 8, 7) }

/-- A constant 3x3 previous frame (dimension-mismatched against f22). -/
def p33 : Image := { h := 3, w := 3, px := fun _ _ => (1, 1, 1) }

theorem le_maxList_of_mem {l : List ℕ} {a : ℕ} (h : a ∈ l) : a ≤ maxList l := by
  induction l with
  | nil => cases h
  | cons b t ih =>
    rcases List.mem_cons.1 h with rfl | ht
    · exact le_max_left _ _
    · exact le_trans (ih ht) (le_max_right _ _)

theorem maxList_le {l : List ℕ} {b : ℕ} (h : ∀ a ∈ l, a ≤ b) : maxList l ≤ b := by
  induction l with
  | nil => exact Nat.zero_le b
  | cons c t ih =>
    exact max_le (h c (List.mem_cons_self c t)) (ih fun a ha => h a (List.mem_cons_of_mem c ha))

theorem maxList_prop {P : ℕ → Prop} {l : List ℕ} (h0 : P 0)
    (hmax : ∀ a b, P a → P b → P (max a b)) (hl : ∀ a ∈ l, P a) : P (maxList l) := by
  induction l with
  | nil => exact h0
  | cons c t ih =>
    exact hmax c (maxList t) (hl c (List.mem_cons_self c t))
      (ih fun a ha => hl a (List.mem_cons_of_mem c ha))

/-- The dilated value at a cell is bounded by b whenever every source cell
the structuring element can reach is bounded by b. -/
theorem cvDilate_cell_le {K : List (ℤ × ℤ)} {g : Grid} {y x b : ℕ}
    (hb : ∀ d ∈ K, ∀ j i : ℕ, (j : ℤ) = (y : ℤ) + d.1 → (i : ℤ) = (x : ℤ) + d.2 →
      j < g.h → i < g.w → g.cell j i ≤ b) :
    (cvDilate K g).cell y x ≤ b := by
  apply maxList_le
  intro a ha
  rcases List.mem_map.1 ha with ⟨d, hd, rfl⟩
  by_cases hc : 0 ≤ (y : ℤ) + d.1 ∧ (y : ℤ) + d.1 < (g.h : ℤ) ∧
      0 ≤ (x : ℤ) + d.2 ∧ (x : ℤ) + d.2 < (g.w : ℤ)
  · rw [if_pos hc]
    exact hb d hd _ _ (Int.toNat_of_nonneg hc.1) (Int.toNat_of_nonneg hc.2.2.1)
      (by omega) (by omega)
  · rw [if_neg hc]; exact Nat.zero_le b

/-- A structuring element containing the anchor makes dilation grow: the
dilated value at an in-bounds cell dominates the source value there. -/
theorem le_cvDilate_cell {K : List (ℤ × ℤ)} {g : Grid} {y x : ℕ}
    (h0 : ((0 : ℤ), (0 : ℤ)) ∈ K) (hy : y < g.h) (hx : x < g.w) :
    g.cell y x ≤ (cvDilate K g).cell y x := by
  have hmem : g.cell y x ∈ K.map (fun d =>
      if 0 ≤ (y : ℤ) + d.1 ∧ (y : ℤ) + d.1 < (g.h : ℤ) ∧
         0 ≤ (x : ℤ) + d.2 ∧ (x : ℤ) + d.2 < (g.w : ℤ) then
        g.cell ((y : ℤ) + d.1).toNat ((x : ℤ) + d.2).toNat
      else 0) := by
    refine List.mem_map.2 ⟨((0 : ℤ), (0 : ℤ)), h0, ?_⟩
    rw [if_pos (by constructor <;> omega)]
    norm_num
  exact le_maxList_of_mem hmem

/-- Dilation preserves any cell-value property that holds at 0 and is
closed under max. -/
theorem cvDilate_cell_mem {P : ℕ → Prop} {K : List (ℤ × ℤ)} {g : Grid}
    (h0 : P 0) (hmax : ∀ a b, P a → P b → P (max a b))
    (hg : ∀ j i, P (g.cell j i)) (y x : ℕ) : P ((cvDilate K g).cell y x) := by
  apply maxList_prop h0 hmax
  intro a ha
  rcases List.mem_map.1 ha with ⟨d, hd, rfl⟩
  by_cases hc : 0 ≤ (y : ℤ) + d.1 ∧ (y : ℤ) + d.1 < (g.h : ℤ) ∧
      0 ≤ (x : ℤ) + d.2 ∧ (x : ℤ) + d.2 < (g.w : ℤ)
  · rw [if_pos hc]; exact hg _ _
  · rw [if_neg hc]; exact h0

/-- Broadcast indexing is the identity at indices below the dimension. -/
theorem bidx_of_lt {d i : ℕ} (h : i < d) : bidx d i = i := by
  unfold bidx
  split
  · omega
  · rfl

/-- The offsets of the 7x7 elliptical element stay within 3 of the anchor. -/
theorem ellipse7_bounded : ∀ d ∈ ellipse7,
    -3 ≤ d.1 ∧ d.1 ≤ 3 ∧ -3 ≤ d.2 ∧ d.2 ≤ 3 := by decide

/-- The anchor belongs to the 7x7 elliptical element. -/
theorem ellipse7_anchor : ((0 : ℤ), (0 : ℤ)) ∈ ellipse7 := by decide

set_option maxRecDepth 200000
set_option synthInstance.maxSize 2000
set_option synthInstance.maxHeartbeats 1000000

/-- The pre-dilation mask is nonzero everywhere on the prior rectangle,
whatever the contour step produced. -/
theorem preDilation_ne_zero_of_prior {hh ww : ℕ} {cs : List Contour} {y x : ℕ}
    (hp : inPriorRect hh ww y x) : (preDilationMask hh ww cs).cell y x ≠ 0 := by
  simp only [preDilationMask, orGrid, contourGrid, priorGrid]
  rw [if_pos hp]
  split
  · decide
  · decide

/-- C1: in spatial-only reconstruction, remove_watermark_inpaint succeeds on
equal frame and mask dimensions, and every in-bounds pixel whose mask value
is 0 is bit-identical between the input frame and the output frame. -/
theorem c1_outside_mask_invariance (o : CvOracles) (f : Image) (m : Grid) (y x : ℕ)
    (hh : f.h = m.h) (hw : f.w = m.w) (hm : m.cell y x = 0) :
    remove_watermark_inpaint o f m = .ok (inpaintImg o f m 5) ∧
    (inpaintImg o f m 5).px y x = f.px y x := by
  constructor
  · unfold remove_watermark_inpaint cvInpaint
    rw [if_pos ⟨hh, hw⟩]
  · show (if y < f.h ∧ x < f.w ∧ m.cell y x ≠ 0 then o.telea f m 5 y x else f.px y x)
      = f.px y x
    rw [if_neg (fun hc => hc.2.2 hm)]

/-- C1 witness: at the 2x2 frame f22 and the all-zero 2x2 mask m22, the
pixel (0, 0) is unchanged by remove_watermark_inpaint. -/
theorem c1_outside_mask_invariance_witness :
    remove_watermark_inpaint o0 f22 m22 = .ok (inpaintImg o0 f22 m22 5) ∧
    (inpaintImg o0 f22 m22 5).px 0 0 = f22.px 0 0 :=
  c1_outside_mask_invariance o0 f22 m22 0 0 rfl rfl rfl

/-- C2 counterexample: on the all-black 100x100 frame the thresholded
sub-rectangle is all zero (so the contour oracle returning no contours is
the faithful cv2.findContours output), yet the final mask holds the value
128 at cell (95, 95), which is neither 0 nor 255. -/
theorem c2_mask_values_counterexample :
    (threshRoi black100).h = 15 ∧ (threshRoi black100).w = 30 ∧
    (∀ y < 15, ∀ x < 30, (threshRoi black100).cell y x = 0) ∧
    (detect_sora_watermark o0 black100).cell 95 95 = 128 ∧
    ¬((detect_sora_watermark o0 black100).cell 95 95 = 0 ∨
      (detect_sora_watermark o0 black100).cell 95 95 = 255) := by
  decide

/-- C2 amended: every cell of the mask returned by detect_sora_watermark is
0, 128 or 255 (128 arises where only the fixed prior rectangle
contributes), for every oracle, frame and cell. -/
theorem c2_mask_values_amended (o : CvOracles) (f : Image) (y x : ℕ) :
    (detect_sora_watermark o f).cell y x = 0 ∨
    (detect_sora_watermark o f).cell y x = 128 ∨
    (detect_sora_watermark o f).cell y x = 255 := by
  have hmax : ∀ a b : ℕ, (a = 0 ∨ a = 128 ∨ a = 255) → (b = 0 ∨ b = 128 ∨ b = 255) →
      (max a b = 0 ∨ max a b = 128 ∨ max a b = 255) := by
    intro a b ha hb
    rcases max_choice a b with h | h <;> rw [h] <;> assumption
  have hpre : ∀ j i : ℕ,
      (preDilationMask f.h f.w (o.findContours (threshRoi f))).cell j i = 0 ∨
      (preDilationMask f.h f.w (o.findContours (threshRoi f))).cell j i = 128 ∨
      (preDilationMask f.h f.w (o.findContours (threshRoi f))).cell j i = 255 := by
    intro j i
    simp only [preDilationMask, orGrid, contourGrid, priorGrid]
    split <;> split <;> decide
  exact cvDilate_cell_mem (Or.inl rfl) hmax
    (cvDilate_cell_mem (Or.inl rfl) hmax hpre) y x

/-- C3: every in-frame cell of the fixed prior rectangle (bottom-right,
int(0.08 w) by int(0.04 h), inset int(0.02 w) and int(0.02 h)) is nonzero
in the final mask, for every frame and every contour-oracle output. -/
theorem c3_prior_rect_containment (o : CvOracles) (f : Image) (y x : ℕ)
    (hp : inPriorRect f.h f.w y x) :
    (detect_sora_watermark o f).cell y x ≠ 0 := by
  have hx : x < f.w := hp.2.2.2.2.1
  have hy : y < f.h := hp.2.2.2.2.2
  have h0 : (preDilationMask f.h f.w (o.findContours (threshRoi f))).cell y x ≠ 0 :=
    preDilation_ne_zero_of_prior hp
  have h1 : (preDilationMask f.h f.w (o.findContours (threshRoi f))).cell y x ≤
      (cvDilate ellipse7 (preDilationMask f.h f.w (o.findContours (threshRoi f)))).cell y x :=
    le_cvDilate_cell ellipse7_anchor hy hx
  have h2 : (cvDilate ellipse7 (preDilationMask f.h f.w (o.findContours (threshRoi f)))).cell y x ≤
      (detect_sora_watermark o f).cell y x :=
    le_cvDilate_cell ellipse7_anchor hy hx
  omega

/-- C3 witness: cell (95, 95) lies in the prior rectangle of a 100x100
frame and is nonzero in the mask computed for the all-black frame. -/
theorem c3_prior_rect_containment_witness :
    (detect_sora_watermark o0 black100).cell 95 95 ≠ 0 :=
  c3_prior_rect_containment o0 black100 95 95 (by decide)

/-- The numpy broadcast of a shape with itself. -/
theorem bcastDims_self (a : ℕ × ℕ) : bcastDims a a = some a := by
  unfold bcastDims
  rw [if_pos ⟨Or.inl rfl, Or.inl rfl⟩]
  simp

/-- A zero blend weight keeps the current channel value. -/
theorem blendChan_zero (cv pv : ℕ) : blendChan cv pv 0 0 = cv := by
  unfold blendChan ratToUint8
  have hq : (cv : ℚ) * (1 - (0 : ℕ) / 255) + (pv : ℚ) * ((0 : ℕ) / 255) = (cv : ℚ) := by
    push_cast
    ring
  rw [hq, Int.floor_natCast, Int.toNat_natCast]

/-- A full blend weight takes the previous channel value. -/
theorem blendChan_full (cv pv : ℕ) : blendChan cv pv 255 255 = pv := by
  unfold blendChan ratToUint8
  have hq : (cv : ℚ) * (1 - (255 : ℕ) / 255) + (pv : ℚ) * ((255 : ℕ) / 255) = (pv : ℚ) := by
    push_cast
    ring
  rw [hq, Int.floor_natCast, Int.toNat_natCast]

/-- The blended channel as a single rational floor, for byte weights. -/
theorem blendChan_formula (cv pv mv : ℕ) (hm : mv ≤ 255) :
    (blendChan cv pv mv mv : ℤ) = ⌊((cv : ℚ) * (255 - mv) + pv * mv) / 255⌋ := by
  unfold blendChan ratToUint8
  have hq : (cv : ℚ) * (1 - (mv : ℕ) / 255) + (pv : ℚ) * ((mv : ℕ) / 255) =
      ((cv : ℚ) * (255 - mv) + pv * mv) / 255 := by
    ring
  rw [hq]
  rw [Int.toNat_of_nonneg]
  apply Int.floor_nonneg.2
  apply div_nonneg _ (by norm_num)
  have h1 : (0 : ℚ) ≤ 255 - mv := by
    have : (mv : ℚ) ≤ 255 := by exact_mod_cast hm
    linarith
  have h2 : (0 : ℚ) ≤ (cv : ℚ) := by positivity
  have h3 : (0 : ℚ) ≤ (pv : ℚ) * mv := by positivity
  nlinarith

/-- With equal current, previous and mask dimensions, remove_watermark_smart
is exactly: blend, then inpaint the dilated Canny edge band with radius 3. -/
theorem smart_some_eq (o : CvOracles) (f p : Image) (m : Grid)
    (hmh : m.h = f.h) (hmw : m.w = f.w) (hph : p.h = f.h) (hpw : p.w = f.w) :
    remove_watermark_smart o f m (some p) =
      cvInpaint o (blendImage f p m (f.h, f.w) (f.h, f.w) (f.h, f.w)) (edgeMask o m) 3 := by
  have e1 : bcastDims (f.h, f.w) (m.h, m.w) = some (f.h, f.w) := by
    rw [hmh, hmw]; exact bcastDims_self _
  have e2 : bcastDims (p.h, p.w) (m.h, m.w) = some (f.h, f.w) := by
    rw [hmh, hmw, hph, hpw]; exact bcastDims_self _
  have e3 : bcastDims ((f.h, f.w) : ℕ × ℕ) (f.h, f.w) = some (f.h, f.w) := bcastDims_self _
  simp only [remove_watermark_smart, e1, e2, e3]

/-- With matching dimensions all the way, remove_watermark_smart succeeds
and preserves the frame dimensions. -/
theorem smart_ok (o : CvOracles) (f : Image) (m : Grid) (prev : Option Image)
    (hmh : m.h = f.h) (hmw : m.w = f.w)
    (hprev : ∀ q, prev = some q → q.h = f.h ∧ q.w = f.w) :
    ∃ r, remove_watermark_smart o f m prev = .ok r ∧ r.h = f.h ∧ r.w = f.w := by
  cases prev with
  | none =>
    refine ⟨inpaintImg o f m 5, ?_, rfl, rfl⟩
    show remove_watermark_inpaint o f m = _
    unfold remove_watermark_inpaint cvInpaint
    rw [if_pos ⟨hmh.symm, hmw.symm⟩]
  | some q =>
    have hq := hprev q rfl
    rw [smart_some_eq o f q m hmh hmw hq.1 hq.2]
    refine ⟨inpaintImg o (blendImage f q m (f.h, f.w) (f.h, f.w) (f.h, f.w))
      (edgeMask o m) 3, ?_, rfl, rfl⟩
    unfold cvInpaint
    rw [if_pos ⟨hmh.symm, hmw.symm⟩]

/-- C4: with the previous reconstructed frame present and all dimensions
equal, remove_watermark_smart first computes the blended image whose every
in-bounds pixel is current * (1 - m / 255) + previous * (m / 255) truncated
to uint8 (m the mask value at that pixel), and then inpaints only the
dilated Canny edge band of the mask; a pixel with mask value 0 keeps the
current value and a pixel with mask value 255 takes the previous value in
the blend. -/
theorem c4_blend_formula (o : CvOracles) (f p : Image) (m : Grid) (y x : ℕ)
    (hmh : m.h = f.h) (hmw : m.w = f.w) (hph : p.h = f.h) (hpw : p.w = f.w)
    (hy : y < f.h) (hx : x < f.w) :
    remove_watermark_smart o f m (some p) =
      cvInpaint o (blendImage f p m (f.h, f.w) (f.h, f.w) (f.h, f.w)) (edgeMask o m) 3 ∧
    (blendImage f p m (f.h, f.w) (f.h, f.w) (f.h, f.w)).px y x =
      blendPix (f.px y x) (p.px y x) (m.cell y x) (m.cell y x) ∧
    (∀ cv pv mv : ℕ, mv ≤ 255 →
      (blendChan cv pv mv mv : ℤ) = ⌊((cv : ℚ) * (255 - mv) + pv * mv) / 255⌋) ∧
    (m.cell y x = 0 →
      (blendImage f p m (f.h, f.w) (f.h, f.w) (f.h, f.w)).px y x = f.px y x) ∧
    (m.cell y x = 255 →
      (blendImage f p m (f.h, f.w) (f.h, f.w) (f.h, f.w)).px y x = p.px y x) := by
  have hpx : (blendImage f p m (f.h, f.w) (f.h, f.w) (f.h, f.w)).px y x =
      blendPix (f.px y x) (p.px y x) (m.cell y x) (m.cell y x) := by
    simp only [blendImage, hmh, hmw, hph, hpw, bidx_of_lt hy, bidx_of_lt hx]
  refine ⟨smart_some_eq o f p m hmh hmw hph hpw, hpx, blendChan_formula, ?_, ?_⟩
  · intro h0
    rw [hpx, h0]
    show (blendChan _ _ 0 0, blendChan _ _ 0 0, blendChan _ _ 0 0) = _
    rw [blendChan_zero, blendChan_zero, blendChan_zero]
    rfl
  · intro h255
    rw [hpx, h255]
    show (blendChan _ _ 255 255, blendChan _ _ 255 255, blendChan _ _ 255 255) = _
    rw [blendChan_full, blendChan_full, blendChan_full]
    rfl

/-- C4 witness: the blend conclusions at the 2x2 frames f22 and p22 with
the all-zero mask m22, at pixel (0, 0). -/
theorem c4_blend_formula_witness :
    remove_watermark_smart o0 f22 m22 (some p22) =
      cvInpaint o0 (blendImage f22 p22 m22 (f22.h, f22.w) (f22.h, f22.w) (f22.h, f22.w))
        (edgeMask o0 m22) 3 ∧
    (blendImage f22 p22 m22 (f22.h, f22.w) (f22.h, f22.w) (f22.h, f22.w)).px 0 0 =
      blendPix (f22.px 0 0) (p22.px 0 0) (m22.cell 0 0) (m22.cell 0 0) ∧
    (∀ cv pv mv : ℕ, mv ≤ 255 →
      (blendChan cv pv mv mv : ℤ) = ⌊((cv : ℚ) * (255 - mv) + pv * mv) / 255⌋) ∧
    (m22.cell 0 0 = 0 →
      (blendImage f22 p22 m22 (f22.h, f22.w) (f22.h, f22.w) (f22.h, f22.w)).px 0 0 =
        f22.px 0 0) ∧
    (m22.cell 0 0 = 255 →
      (blendImage f22 p22 m22 (f22.h, f22.w) (f22.h, f22.w) (f22.h, f22.w)).px 0 0 =
        p22.px 0 0) :=
  c4_blend_formula o0 f22 p22 m22 0 0 rfl rfl rfl rfl (by decide) (by decide)

/-- C5 counterexample: with a previous frame of different dimensions (3x3
against a 2x2 frame), remove_watermark_smart raises a numpy broadcast error
instead of falling back to the spatial-only result, which exists. -/
theorem c5_mismatch_no_fallback_counterexample :
    remove_watermark_smart o0 f22 m22 (some p33) = .error .broadcastMismatch ∧
    remove_watermark_inpaint o0 f22 m22 = .ok (inpaintImg o0 f22 m22 5) ∧
    p33.h ≠ f22.h := ⟨rfl, rfl, by decide⟩

/-- C5 amended: remove_watermark_smart falls back to spatial-only
inpainting exactly when the previous frame is absent; a previous frame of
non-broadcastable dimensions makes the blend raise instead. -/
theorem c5_fallback_only_when_none (o : CvOracles) (f : Image) (m : Grid) :
    remove_watermark_smart o f m none = remove_watermark_inpaint o f m := rfl

/-- C6 counterexample: frame and mask dimensions agree (2x2), yet the
reconstructor fails, because the previous reconstructed frame passed in is
3x3 and the blend raises a broadcast error; so equal frame and mask
dimensions do not guarantee an error-free result. -/
theorem c6_reconstructor_failure_counterexample :
    f22.h = m22.h ∧ f22.w = m22.w ∧
    remove_watermark_smart o0 f22 m22 (some p33) = .error .broadcastMismatch :=
  ⟨rfl, rfl, rfl⟩

/-- C6 amended: remove_watermark_inpaint fails exactly when the frame and
mask dimensions mismatch, and remove_watermark_smart with a previous frame
succeeds whenever all three dimensions agree; but a dimension-mismatched
previous frame can make remove_watermark_smart fail even with frame and
mask dimensions equal. -/
theorem c6_failure_condition_amended (o : CvOracles) (f p : Image) (m : Grid)
    (hh : 1 ≤ f.h) (hw : 1 ≤ f.w) :
    ((remove_watermark_inpaint o f m).isOk = true ↔ (f.h = m.h ∧ f.w = m.w)) ∧
    (m.h = f.h → m.w = f.w → p.h = f.h → p.w = f.w →
      (remove_watermark_smart o f m (some p)).isOk = true) := by
  constructor
  · unfold remove_watermark_inpaint cvInpaint
    by_cases hd : f.h = m.h ∧ f.w = m.w
    · rw [if_pos hd]
      exact ⟨fun _ => hd, fun _ => rfl⟩
    · rw [if_neg hd]
      exact ⟨fun habs => absurd habs (by decide), fun hcon => absurd hcon hd⟩
  · intro hmh hmw hph hpw
    obtain ⟨r, hr, _, _⟩ := smart_ok o f m (some p) hmh hmw
      (fun q hq => by cases hq; exact ⟨hph, hpw⟩)
    rw [hr]
    rfl

/-- C6 witness: the amended failure condition at the 2x2 frame, mask and
previous frame. -/
theorem c6_failure_condition_amended_witness :
    ((remove_watermark_inpaint o0 f22 m22).isOk = true ↔ (f22.h = m22.h ∧ f22.w = m22.w)) ∧
    (m22.h = f22.h → m22.w = f22.w → p22.h = f22.h → p22.w = f22.w →
      (remove_watermark_smart o0 f22 m22 (some p22)).isOk = true) :=
  c6_failure_condition_amended o0 f22 p22 m22 (by decide) (by decide)

/-- C7 counterexample: on a degenerate frame with no rows and no columns
the sub-rectangle is empty, and the detector raises the library error of
cv2.cvtColor instead of returning a prior-only mask, so it is not true that
the detector never fails on any input frame. -/
theorem c7_detector_failure_counterexample :
    detectSoraWatermarkE o0 { h := 0, w := 0, px := fun _ _ => (0, 0, 0) } =
      .error .invalidInput := rfl

/-- The analysis sub-rectangle keeps at least one row for a nonempty frame. -/
theorem roiY_lt {h : ℕ} (hh : 1 ≤ h) : roiY h < h := by
  unfold roiY
  omega

/-- The analysis sub-rectangle keeps at least one column for a nonempty
frame. -/
theorem roiX_lt {w : ℕ} (hw : 1 ≤ w) : roiX w < w := by
  unfold roiX
  split
  · split
    · omega
    · split <;> omega
  · omega

/-- C7 amended: for every frame with at least one row and one column the
sub-rectangle extraction succeeds, so detect_sora_watermark never raises;
there is no graceful-degradation path, and only the degenerate empty frame
makes the detector raise. -/
theorem c7_no_failure_amended (o : CvOracles) (f : Image)
    (hh : 1 ≤ f.h) (hw : 1 ≤ f.w) :
    detectSoraWatermarkE o f = .ok (detect_sora_watermark o f) := by
  unfold detectSoraWatermarkE
  rw [if_neg]
  push_neg
  have h1 := roiY_lt hh
  have h2 := roiX_lt hw
  omega

/-- C7 witness: the detector succeeds on the all-black 100x100 frame. -/
theorem c7_no_failure_amended_witness :
    detectSoraWatermarkE o0 black100 = .ok (detect_sora_watermark o0 black100) :=
  c7_no_failure_amended o0 black100 (by decide) (by decide)

/-- The streaming loop succeeds whenever the mask dimensions and every
frame and the incoming previous reference match, producing one output per
input frame, all at the same dimensions, the first being the current
reconstruction of the first frame. -/
theorem processLoop_ok (o : CvOracles) (mask : Grid) (hh ww : ℕ)
    (hmh : mask.h = hh) (hmw : mask.w = ww) :
    ∀ (fs : List Image) (prev : Option Image),
      (∀ f ∈ fs, f.h = hh ∧ f.w = ww) →
      (∀ q, prev = some q → q.h = hh ∧ q.w = ww) →
      ∃ outs, processLoop o mask fs prev = .ok outs ∧
        outs.length = fs.length ∧
        (∀ im ∈ outs, im.h = hh ∧ im.w = ww) ∧
        (∀ f rest, fs = f :: rest →
          ∃ c cs, outs = c :: cs ∧ remove_watermark_smart o f mask prev = .ok c) := by
  intro fs
  induction fs with
  | nil =>
    intro prev _ _
    exact ⟨[], rfl, rfl, fun im him => absurd him (List.not_mem_nil im),
      fun f rest hfs => absurd hfs (by simp)⟩
  | cons f rest ih =>
    intro prev hdims hprev
    have hf := hdims f (List.mem_cons_self f rest)
    obtain ⟨r, hr, hrh, hrw⟩ := smart_ok o f mask prev
      (by omega) (by omega)
      (fun q hq => by
        have hq2 := hprev q hq
        exact ⟨by omega, by omega⟩)
    obtain ⟨outs, houts, hlen, hdims2, _⟩ := ih (some r)
      (fun g hg => hdims g (List.mem_cons_of_mem f hg))
      (fun q hq => by cases hq; exact ⟨by omega, by omega⟩)
    refine ⟨r :: outs, ?_, by simp [hlen], ?_, ?_⟩
    · show (match remove_watermark_smart o f mask prev with
        | Except.error e => Except.error e
        | Except.ok c =>
          match processLoop o mask rest (some c) with
          | Except.error e => Except.error e
          | Except.ok cs => Except.ok (c :: cs)) = Except.ok (r :: outs)
      rw [hr]
      show (match processLoop o mask rest (some r) with
        | Except.error e => Except.error e
        | Except.ok cs => Except.ok (r :: cs)) = Except.ok (r :: outs)
      rw [houts]
    · intro im him
      rcases List.mem_cons.1 him with rfl | him2
      · exact ⟨by omega, by omega⟩
      · exact hdims2 im him2
    · intro g grest hfs
      rw [List.cons.injEq] at hfs
      exact ⟨r, outs, rfl, by rw [← hfs.1]; exact hr⟩

/-- C8: for every nonempty frame sequence of constant dimensions,
process_video_watermark succeeds, writes exactly one output frame per
input frame, each at the input dimensions, and the first output frame is
frame 0 itself reconstructed (spatially, as no previous output exists),
not skipped. -/
theorem c8_driver_contract (o : CvOracles) (f0 : Image) (rest : List Image)
    (hh ww : ℕ) (h1 : 1 ≤ hh) (h2 : 1 ≤ ww)
    (hdims : ∀ f ∈ f0 :: rest, f.h = hh ∧ f.w = ww) :
    ∃ outs, process_video_watermark o (f0 :: rest) = .ok outs ∧
      outs.length = (f0 :: rest).length ∧
      (∀ im ∈ outs, im.h = hh ∧ im.w = ww) ∧
      outs.head? = some (inpaintImg o f0 (detect_sora_watermark o f0) 5) := by
  have hf0 := hdims f0 (List.mem_cons_self f0 rest)
  have hmaskh : (detect_sora_watermark o f0).h = hh := hf0.1
  have hmaskw : (detect_sora_watermark o f0).w = ww := hf0.2
  obtain ⟨outs, houts, hlen, hdims2, hhead⟩ :=
    processLoop_ok o (detect_sora_watermark o f0) hh ww hmaskh hmaskw
      (f0 :: rest) none hdims (fun q hq => by cases hq)
  refine ⟨outs, ?_, hlen, hdims2, ?_⟩
  · show processLoop o (detect_sora_watermark o f0) (f0 :: rest) none = _
    exact houts
  · obtain ⟨c, cs, hout, hc⟩ := hhead f0 rest rfl
    have hspat : remove_watermark_smart o f0 (detect_sora_watermark o f0) none =
        Except.ok (inpaintImg o f0 (detect_sora_watermark o f0) 5) := by
      show remove_watermark_inpaint o f0 (detect_sora_watermark o f0) = _
      unfold remove_watermark_inpaint cvInpaint
      rw [if_pos ⟨rfl, rfl⟩]
    have hceq : inpaintImg o f0 (detect_sora_watermark o f0) 5 = c :=
      Except.ok.inj (hspat.symm.trans hc)
    rw [hout, ← hceq]
    rfl

/-- C8 witness: a two-frame 2x2 sequence processes into two 2x2 output
frames whose first is the spatial reconstruction of frame 0. -/
theorem c8_driver_contract_witness :
    ∃ outs, process_video_watermark o0 [f22, p22] = .ok outs ∧
      outs.length = ([f22, p22] : List Image).length ∧
      (∀ im ∈ outs, im.h = 2 ∧ im.w = 2) ∧
      outs.head? = some (inpaintImg o0 f22 (detect_sora_watermark o0 f22) 5) :=
  c8_driver_contract o0 f22 [p22] 2 2 (by decide) (by decide) (by decide)

/-- At mask value 128 the blend is the floor of (127 c + 128 p) / 255,
which is within one of the exact average of the two channel values. -/
theorem blend128_bounds (cv pv : ℕ) (hcv : cv ≤ 255) (hpv : pv ≤ 255) :
    (blendPixel cv pv 128 : ℤ) = ⌊((cv : ℚ) * 127 + pv * 128) / 255⌋ ∧
    cv + pv ≤ 2 * blendPixel cv pv 128 + 2 ∧
    2 * blendPixel cv pv 128 ≤ cv + pv + 1 := by
  have hform := blendChan_formula cv pv 128 (by norm_num)
  have hrw : ((cv : ℚ) * (255 - ((128 : ℕ) : ℚ)) + (pv : ℚ) * ((128 : ℕ) : ℚ)) / 255 =
      ((cv : ℚ) * 127 + pv * 128) / 255 := by norm_num
  rw [hrw] at hform
  have hcvq : (cv : ℚ) ≤ 255 := by exact_mod_cast hcv
  have hpvq : (pv : ℚ) ≤ 255 := by exact_mod_cast hpv
  have hcv0 : (0 : ℚ) ≤ (cv : ℚ) := Nat.cast_nonneg cv
  have hpv0 : (0 : ℚ) ≤ (pv : ℚ) := Nat.cast_nonneg pv
  have h2q : 2 * (((cv : ℚ) * 127 + pv * 128) / 255) =
      ((cv : ℚ) * 254 + pv * 256) / 255 := by ring
  have key1 : (cv : ℚ) + pv - 1 ≤ 2 * (((cv : ℚ) * 127 + pv * 128) / 255) := by
    rw [h2q, le_div_iff (by norm_num : (0 : ℚ) < 255)]
    linarith
  have key2 : 2 * (((cv : ℚ) * 127 + pv * 128) / 255) ≤ (cv : ℚ) + pv + 1 := by
    rw [h2q, div_le_iff (by norm_num : (0 : ℚ) < 255)]
    linarith
  have hfl1 : (⌊((cv : ℚ) * 127 + pv * 128) / 255⌋ : ℚ) ≤
      ((cv : ℚ) * 127 + pv * 128) / 255 := Int.floor_le _
  have hfl2 : ((cv : ℚ) * 127 + pv * 128) / 255 <
      (⌊((cv : ℚ) * 127 + pv * 128) / 255⌋ : ℚ) + 1 := Int.lt_floor_add_one _
  have hBq : ((blendPixel cv pv 128 : ℕ) : ℚ) =
      (⌊((cv : ℚ) * 127 + pv * 128) / 255⌋ : ℚ) := by
    exact_mod_cast hform
  have k1 : ((cv : ℚ)) + pv - 1 < 2 * ((blendPixel cv pv 128 : ℕ) : ℚ) + 2 := by
    rw [hBq]
    linarith
  have k2 : 2 * ((blendPixel cv pv 128 : ℕ) : ℚ) ≤ ((cv : ℚ)) + pv + 1 := by
    rw [hBq]
    linarith
  have z1 : (cv : ℤ) + pv - 1 < 2 * (blendPixel cv pv 128 : ℤ) + 2 := by
    exact_mod_cast k1
  have z2 : 2 * (blendPixel cv pv 128 : ℤ) ≤ (cv : ℤ) + pv + 1 := by
    exact_mod_cast k2
  exact ⟨hform, by omega, by omega⟩

/-- C9: a mask cell of the prior rectangle whose 12-pixel dilation
neighbourhood carries no accepted text-contour rectangle ends with value
128, and at weight 128 the temporal blend is an approximately equal average
of the current and previous channel values (so previous clean content does
not fully replace the watermarked pixel there). -/
theorem c9_prior_only_half_blend (o : CvOracles) (f : Image) (y x : ℕ)
    (hp : inPriorRect f.h f.w y x)
    (hc : ∀ j, j < f.h → ∀ i, i < f.w →
      (y : ℤ) - 6 ≤ (j : ℤ) → (j : ℤ) ≤ (y : ℤ) + 6 →
      (x : ℤ) - 6 ≤ (i : ℤ) → (i : ℤ) ≤ (x : ℤ) + 6 →
      (contourGrid f.h f.w (o.findContours (threshRoi f))).cell j i = 0) :
    (detect_sora_watermark o f).cell y x = 128 ∧
    (∀ cv pv : ℕ, cv ≤ 255 → pv ≤ 255 →
      ((blendPixel cv pv 128 : ℤ) = ⌊((cv : ℚ) * 127 + pv * 128) / 255⌋ ∧
       cv + pv ≤ 2 * blendPixel cv pv 128 + 2 ∧
       2 * blendPixel cv pv 128 ≤ cv + pv + 1)) := by
  have hx : x < f.w := hp.2.2.2.2.1
  have hy : y < f.h := hp.2.2.2.2.2
  constructor
  · show (cvDilate ellipse7 (cvDilate ellipse7
      (preDilationMask f.h f.w (o.findContours (threshRoi f))))).cell y x = 128
    have hpre_le : ∀ j i : ℕ, j < f.h → i < f.w →
        (y : ℤ) - 6 ≤ (j : ℤ) → (j : ℤ) ≤ (y : ℤ) + 6 →
        (x : ℤ) - 6 ≤ (i : ℤ) → (i : ℤ) ≤ (x : ℤ) + 6 →
        (preDilationMask f.h f.w (o.findContours (threshRoi f))).cell j i ≤ 128 := by
      intro j i hj hi w1 w2 w3 w4
      show (contourGrid f.h f.w (o.findContours (threshRoi f))).cell j i |||
        (priorGrid f.h f.w).cell j i ≤ 128
      rw [hc j hj i hi w1 w2 w3 w4]
      show 0 ||| (if inPriorRect f.h f.w j i then 128 else 0) ≤ 128
      split
      · decide
      · decide
    have hpre_eq :
        (preDilationMask f.h f.w (o.findContours (threshRoi f))).cell y x = 128 := by
      show (contourGrid f.h f.w (o.findContours (threshRoi f))).cell y x |||
        (priorGrid f.h f.w).cell y x = 128
      rw [hc y hy x hx (by omega) (by omega) (by omega) (by omega)]
      show 0 ||| (if inPriorRect f.h f.w y x then 128 else 0) = 128
      rw [if_pos hp]
      decide
    have hup : (cvDilate ellipse7 (cvDilate ellipse7
        (preDilationMask f.h f.w (o.findContours (threshRoi f))))).cell y x ≤ 128 := by
      apply cvDilate_cell_le
      intro d1 hd1 j i hj1 hi1 hjh hiw
      apply cvDilate_cell_le
      intro d2 hd2 j2 i2 hj2 hi2 hj2h hi2w
      obtain ⟨b11, b12, b13, b14⟩ := ellipse7_bounded d1 hd1
      obtain ⟨b21, b22, b23, b24⟩ := ellipse7_bounded d2 hd2
      exact hpre_le j2 i2 hj2h hi2w (by omega) (by omega) (by omega) (by omega)
    have hlow1 : (preDilationMask f.h f.w (o.findContours (threshRoi f))).cell y x ≤
        (cvDilate ellipse7 (preDilationMask f.h f.w (o.findContours (threshRoi f)))).cell y x :=
      le_cvDilate_cell ellipse7_anchor hy hx
    have hlow2 : (cvDilate ellipse7
        (preDilationMask f.h f.w (o.findContours (threshRoi f)))).cell y x ≤
        (cvDilate ellipse7 (cvDilate ellipse7
          (preDilationMask f.h f.w (o.findContours (threshRoi f))))).cell y x :=
      le_cvDilate_cell ellipse7_anchor hy hx
    omega
  · exact fun cv pv hcv hpv => blend128_bounds cv pv hcv hpv

/-- C9 witness: on the all-black 100x100 frame no contour rectangle exists
anywhere, cell (95, 95) lies in the prior rectangle, and the conclusions
hold there. -/
theorem c9_prior_only_half_blend_witness :
    (detect_sora_watermark o0 black100).cell 95 95 = 128 ∧
    (∀ cv pv : ℕ, cv ≤ 255 → pv ≤ 255 →
      ((blendPixel cv pv 128 : ℤ) = ⌊((cv : ℚ) * 127 + pv * 128) / 255⌋ ∧
       cv + pv ≤ 2 * blendPixel cv pv 128 + 2 ∧
       2 * blendPixel cv pv 128 ≤ cv + pv + 1)) :=
  c9_prior_only_half_blend o0 black100 95 95 (by decide) (by decide)

/-- C10: two frames of equal dimensions that agree on every pixel of the
analysis sub-rectangle (rows from int(0.85 h), columns from int(0.7 w))
receive identical masks from detect_sora_watermark, whatever the oracle:
pixels outside that sub-rectangle never influence the mask. -/
theorem c10_mask_depends_only_on_roi (o : CvOracles) (f1 f2 : Image)
    (hhh : f1.h = f2.h) (hww : f1.w = f2.w)
    (hagree : ∀ j, j < f1.h → ∀ i, i < f1.w → roiY f1.h ≤ j → roiX f1.w ≤ i →
      f1.px j i = f2.px j i) :
    detect_sora_watermark o f1 = detect_sora_watermark o f2 := by
  obtain ⟨h1, w1, px1⟩ := f1
  obtain ⟨h2, w2, px2⟩ := f2
  have hh2 : h1 = h2 := hhh
  have hw2 : w1 = w2 := hww
  subst hh2
  subst hw2
  have hag : ∀ j, j < h1 → ∀ i, i < w1 → roiY h1 ≤ j → roiX w1 ≤ i →
      px1 j i = px2 j i := hagree
  have hth : threshRoi { h := h1, w := w1, px := px1 } =
      threshRoi { h := h1, w := w1, px := px2 } := by
    show Grid.mk (h1 - roiY h1) (w1 - roiX w1)
        (fun y x => if y < h1 - roiY h1 ∧ x < w1 - roiX w1 then
          (if 200 < gray (px1 (roiY h1 + y) (roiX w1 + x)) then 255 else 0) else 0) =
      Grid.mk (h1 - roiY h1) (w1 - roiX w1)
        (fun y x => if y < h1 - roiY h1 ∧ x < w1 - roiX w1 then
          (if 200 < gray (px2 (roiY h1 + y) (roiX w1 + x)) then 255 else 0) else 0)
    congr 1
    funext y x
    by_cases hb : y < h1 - roiY h1 ∧ x < w1 - roiX w1
    · rw [if_pos hb, if_pos hb,
        hag (roiY h1 + y) (by omega) (roiX w1 + x) (by omega) (by omega) (by omega)]
    · rw [if_neg hb, if_neg hb]
  show detectFromParts h1 w1 (o.findContours (threshRoi { h := h1, w := w1, px := px1 })) =
    detectFromParts h1 w1 (o.findContours (threshRoi { h := h1, w := w1, px := px2 }))
  rw [hth]

/-- A 4x4 frame with a bright pixel at (0, 0), outside the sub-rectangle. -/
def f4a : Image :=
  { h := 4, w := 4, px := fun y x => if y = 0 ∧ x = 0 then (200, 200, 200) else (1, 2, 3) }

/-- A constant 4x4 frame agreeing with f4a on the sub-rectangle. -/
def f4b : Image := { h := 4, w := 4, px := fun _ _ => (1, 2, 3) }

/-- C10 witness: the two 4x4 frames differ at (0, 0) but agree on the
sub-rectangle, and their masks coincide. -/
theorem c10_mask_depends_only_on_roi_witness :
    detect_sora_watermark o0 f4a = detect_sora_watermark o0 f4b :=
  c10_mask_depends_only_on_roi o0 f4a f4b rfl rfl (by decide)
